import Mathlib

/-!
Verification of the core timeline logic of `src/components/MessageList.js`
(stream-chat-react `MessageList` component).

The JavaScript source is shallowly embedded as executable Lean definitions:

* `Msg` models a message object (only the fields the component reads);
  timestamps (`created_at`, `updated_at`, event timestamps, `Date` values)
  are modelled as natural numbers of milliseconds since the Unix epoch.
* `Entry` models the heterogeneous elements of the array built by
  `insertDates`: plain message objects, `{type: 'message.date', date}`
  marker objects, and `{type: 'channel.event', event}` wrapper objects.
  The marker and wrapper objects carry no `created_at` field, which is
  visible through `Entry.createdAtOpt`.
* JavaScript objects used as dictionaries (`readData`,
  `messageGroupStyles`) are modelled as association lists with string
  keys; an absent `id` becomes the literal property key `"undefined"`,
  exactly as `obj[undefined]` does in JavaScript.
-/

/-- A user object; only `id` and `name` are read by the component. -/
structure ChatUser where
  id : String
  name : String
  deriving Repr, DecidableEq

/-- A message object, with exactly the fields `MessageList` reads.
`id` is optional (locally pending messages have none); `user` is the
author's user id (only `message.user.id` is ever read);
`attachments` is the number of attachments (only
`message.attachments.length` is ever read). -/
structure Msg where
  id : Option String
  type : String
  created_at : Nat
  updated_at : Nat
  user : String
  attachments : Nat
  deleted_at : Option Nat
  status : String
  deriving Repr, DecidableEq

/-- A channel event; only its `created_at` timestamp matters here. -/
structure ChanEvent where
  created_at : Nat
  deriving Repr, DecidableEq

/-- One element of the array built by `insertDates`:
a message object, a `{type: 'message.date', date}` object, or a
`{type: 'channel.event', event}` object. -/
inductive Entry where
  | msg (m : Msg)
  | dateMarker (date : Nat)
  | channelEvent (ev : ChanEvent)
  deriving Repr, DecidableEq

/-- The `type` field of an entry: message objects carry their own
`type` string, marker objects have `'message.date'`, event wrappers
have `'channel.event'`. -/
def Entry.typeStr : Entry → String
  | .msg m => m.type
  | .dateMarker _ => "message.date"
  | .channelEvent _ => "channel.event"

/-- The `created_at` field of an entry. Marker objects store their
timestamp under `date` and event wrappers under `event.created_at`, so
for those two shapes `created_at` is `undefined`, modelled as `none`. -/
def Entry.createdAtOpt : Entry → Option Nat
  | .msg m => some m.created_at
  | .dateMarker _ => none
  | .channelEvent _ => none

/-- The `id` field of an entry (`undefined` on markers and wrappers). -/
def Entry.idOpt : Entry → Option String
  | .msg m => m.id
  | .dateMarker _ => none
  | .channelEvent _ => none

/-- The `updated_at` field of an entry (`undefined` on markers and
wrappers, so `msg.updated_at < lastRead` is false for them). -/
def Entry.updatedAtOpt : Entry → Option Nat
  | .msg m => some m.updated_at
  | .dateMarker _ => none
  | .channelEvent _ => none

/-- The `status` field of an entry (`undefined` on markers/wrappers). -/
def Entry.statusOpt : Entry → Option String
  | .msg m => some m.status
  | .dateMarker _ => none
  | .channelEvent _ => none

/-- The JavaScript property key an entry's `id` turns into: an absent
`id` indexes the object at the literal key `"undefined"`. -/
def Entry.propKey (e : Entry) : String :=
  (e.idOpt).getD "undefined"

/-- True for message-object entries (neither marker nor wrapper). -/
def isMsgEntry : Entry → Bool
  | .msg _ => true
  | _ => false

/-- True for `{type: 'message.date'}` marker entries. -/
def isMarkerEntry : Entry → Bool
  | .dateMarker _ => true
  | _ => false

/-- True for `{type: 'channel.event'}` wrapper entries. -/
def isEventEntry : Entry → Bool
  | .channelEvent _ => true
  | _ => false

/-- Milliseconds in one day. -/
def msPerDay : Nat := 86400000

/-- `Date.prototype.getDay()`: the day of the WEEK (0 = Sunday … 6 =
Saturday) of a millisecond timestamp. The Unix epoch fell on a
Thursday, hence the offset 4. The model fixes the UTC timezone; a
fixed local offset only shifts `t` by a constant and changes nothing
below. -/
def dateGetDay (t : Nat) : Nat :=
  (t / msPerDay + 4) % 7

/-- The calendar day of a timestamp (days since the epoch); this is
what the specification's notion of calendar day denotes. -/
def calendarDay (t : Nat) : Nat :=
  t / msPerDay

/-- JavaScript truthiness of a message `id`: `undefined` and the empty
string are falsy, so `message.id || 'first'` ignores them. -/
def idFalsy : Option String → Bool
  | none => true
  | some s => s == ""

/-- The key `message.id || 'first'` used to index `eventHistory`. -/
def jsEventKey (m : Msg) : String :=
  if idFalsy m.id then "first" else m.id.getD ""

/-- The pass-through test at the top of the `insertDates` loop:
`message.type === 'message.read' || message.deleted_at`. -/
def skipMsg (m : Msg) : Bool :=
  m.type == "message.read" || m.deleted_at.isSome

/-- The body of `insertDates` (`MessageList.js` lines 356–397).
`prev` is `messages[i-1]` (`none` exactly when `i === 0`); read-marker
and soft-deleted messages are pushed unchanged and `continue` skips
both the date logic and the event append; otherwise a
`{type:'message.date', date: message.created_at}` object is pushed
first when `i === 0` or when `created_at.getDay()` differs from the
previous input message's `getDay()`, and the events stored under
`eventHistory[message.id || 'first']` are pushed after the message. -/
def insertDatesGo (eh : String → List ChanEvent) : Option Msg → List Msg → List Entry
  | _, [] => []
  | prev, m :: rest =>
    if skipMsg m then
      Entry.msg m :: insertDatesGo eh (some m) rest
    else
      let needsDate : Bool :=
        match prev with
        | none => true
        | some p => dateGetDay m.created_at != dateGetDay p.created_at
      (if needsDate then [Entry.dateMarker m.created_at, Entry.msg m]
       else [Entry.msg m]) ++
        (eh (jsEventKey m)).map Entry.channelEvent ++
        insertDatesGo eh (some m) rest

/-- `insertDates(messages)` with the component's `eventHistory` prop. -/
def insertDates (eh : String → List ChanEvent) (msgs : List Msg) : List Entry :=
  insertDatesGo eh none msgs

/-- Where the code actually inserts a date marker, phrased from the
amended claim: before message `i` exactly when the message is neither
a read marker nor soft-deleted, and `i = 0` or its day of the week
(`getDay`, not its calendar day) differs from that of the immediately
preceding input message. -/
def markerCond (prev : Option Msg) (m : Msg) : Bool :=
  !skipMsg m &&
    (match prev with
     | none => true
     | some p => dateGetDay m.created_at != dateGetDay p.created_at)

/-- The block of output entries contributed by one input message,
under the amended date-marker rule: an optional marker, the message
itself, and (for non-skipped messages) the events bucketed under
`message.id || 'first'`. -/
def specBlock (eh : String → List ChanEvent) (prev : Option Msg) (m : Msg) : List Entry :=
  (if markerCond prev m then [Entry.dateMarker m.created_at] else []) ++
    [Entry.msg m] ++
    (if skipMsg m then [] else (eh (jsEventKey m)).map Entry.channelEvent)

/-- The timeline described by the amended claim: each input message is
paired with its immediately preceding input message (`none` for the
first) and contributes its `specBlock`. -/
def specTimeline (eh : String → List ChanEvent) (msgs : List Msg) : List Entry :=
  ((msgs.zip (none :: msgs.map some)).map (fun p => specBlock eh p.2 p.1)).flatten

/-! ## JavaScript object dictionaries as association lists -/

/-- `obj[k] = v` on a JavaScript object: overwrite the entry if the key
is present, otherwise append a new key. Keys occur at most once in
lists built with `objSet`, mirroring object property keys. -/
def objSet {V : Type} : List (String × V) → String → V → List (String × V)
  | [], k, v => [(k, v)]
  | (k', v') :: rest, k, v =>
    if k = k' then (k, v) :: rest else (k', v') :: objSet rest k v

/-- `obj[k]` on a JavaScript object built with `objSet` (keys unique,
so the first match is the entry). `none` models `undefined`. -/
def objGet {V : Type} (obj : List (String × V)) (k : String) : Option V :=
  (obj.find? (fun p => p.1 == k)).map Prod.snd

/-- Property lookup on an assignment trace (a list of `key = value`
assignments in program order, duplicates allowed): the last assignment
to the key wins, as it does on a JavaScript object. -/
def lookupLast {V : Type} (assigns : List (String × V)) (k : String) : Option V :=
  (assigns.reverse.find? (fun p => p.1 == k)).map Prod.snd

/-! ## `getReadStates` (MessageList.js lines 406–431) -/

/-- A value of the `read` prop: `{ last_read, user }`;
`last_read == null` is modelled as `none`. -/
structure ReadRecord where
  last_read : Option Nat
  user : ChatUser
  deriving Repr, DecidableEq

/-- The first loop of `getReadStates`: `readData[message.id] = []` for
every element of the (timeline) array — including date markers and
event wrappers, whose `undefined` id indexes the key `"undefined"`. -/
def readInit (entries : List Entry) : List (String × List ChatUser) :=
  entries.foldl (fun obj e => objSet obj e.propKey []) []

/-- The inner scan of `getReadStates`: `userLastReadMsgId` after
`for (const msg of messages) if (msg.updated_at < readState.last_read)
userLastReadMsgId = msg.id`. Marker and wrapper entries have an
`undefined` `updated_at`, so the comparison is false for them. The
result distinguishes "never assigned" (`none`) from "assigned a
message's possibly-undefined id" (`some (…)`). -/
def lastReadTarget (entries : List Entry) (lr : Nat) : Option (Option String) :=
  entries.foldl
    (fun acc e =>
      match e.updatedAtOpt with
      | some u => if u < lr then some e.idOpt else acc
      | none => acc)
    none

/-- The second loop of `getReadStates` over `Object.values(this.props.read)`:
a record with `last_read == null` executes `break`, ending the loop;
otherwise the user is appended to `readData[userLastReadMsgId]`
provided `userLastReadMsgId != null` (which also rejects a message
whose own `id` is `undefined`). -/
def readLoop (entries : List Entry) :
    List (String × List ChatUser) → List ReadRecord → List (String × List ChatUser)
  | obj, [] => obj
  | obj, r :: rest =>
    match r.last_read with
    | none => obj
    | some lr =>
      let obj' :=
        match lastReadTarget entries lr with
        | some (some mid) => objSet obj mid ((objGet obj mid).getD [] ++ [r.user])
        | _ => obj
      readLoop entries obj' rest

/-- `getReadStates(messages)` with the `read` prop (in its value
iteration order). -/
def getReadStates (read : List ReadRecord) (entries : List Entry) :
    List (String × List ChatUser) :=
  readLoop entries (readInit entries) read

/-- Spec-side description of the inner scan: the last message of the
sequence whose `updated_at` is strictly before `lr`, if any, mapped to
its (possibly absent) id. -/
def specTarget (msgs : List Msg) (lr : Nat) : Option (Option String) :=
  ((msgs.filter (fun m => m.updated_at < lr)).getLast?).map Msg.id

/-- Spec-side description of one message's read-by list: the users of
the read records before the first null `last_read` (in iteration
order) whose last read message, per `specTarget`, has id `i`. -/
def specReadBy (read : List ReadRecord) (msgs : List Msg) (i : Option String) :
    List ChatUser :=
  (read.takeWhile (fun r => r.last_read.isSome)).filterMap
    (fun r =>
      match r.last_read with
      | some lr => if specTarget msgs lr = some i then some r.user else none
      | none => none)

/-! ## `getGroupStyles` (MessageList.js lines 461–539) -/

/-- The disjunction shared by `isTopMessage`/`isBottomMessage` about a
neighbouring entry: marker, system, event wrapper, has attachments,
different author, error, or soft-deleted. The `type` tests come first,
so the `attachments`/`user` fields of marker and wrapper objects are
never dereferenced (short-circuit `||`, as in the source). -/
def isGroupBoundary (userId : String) (e : Entry) : Bool :=
  e.typeStr == "message.date" || e.typeStr == "system" ||
    e.typeStr == "channel.event" ||
    (match e with
     | .msg p =>
       p.attachments != 0 || userId != p.user || p.type == "error" ||
         p.deleted_at.isSome
     | _ => false)

/-- `isGroupBoundary` lifted to an optional neighbour: a missing
neighbour (`!previousMessage` / `!nextMessage`) counts as a boundary. -/
def isBoundaryOpt (userId : String) : Option Entry → Bool
  | none => true
  | some e => isGroupBoundary userId e

/-- The final `groupStyles` array for one message given the values of
`isTopMessage` and `isBottomMessage`, replaying the push/splice
sequence of the loop body: `top`/`bottom`/`middle`/`single` from the
neighbour tests, then the attachments override, then the
`noGroupByUser` override. -/
def groupStyleCore (noGroupByUser isTop isBottom : Bool) (m : Msg) : List String :=
  let s1 : List String := if isTop then ["top"] else []
  let s2 : List String :=
    if isBottom then
      if isTop || m.deleted_at.isSome || m.type == "error" then ["single"]
      else s1 ++ ["bottom"]
    else s1
  let s3 : List String :=
    if !isTop && !isBottom then
      if m.deleted_at.isSome || m.type == "error" then ["single"] else ["middle"]
    else s2
  let s4 : List String := if m.attachments != 0 then ["single"] else s3
  if noGroupByUser then ["single"] else s4

/-- The final `groupStyles` array for one message:
`isTopMessage`/`isBottomMessage` are the boundary tests against
`messages[i-1]` and `messages[i+1]`. -/
def computeGroupStyle (noGroupByUser : Bool) (prev : Option Entry) (m : Msg)
    (next : Option Entry) : List String :=
  groupStyleCore noGroupByUser (isBoundaryOpt m.user prev) (isBoundaryOpt m.user next) m

/-- One step of the `getGroupStyles` loop: `message.date` and
`channel.event` typed entries are skipped (`continue`); every other
entry is a message object and contributes the assignment
`messageGroupStyles[message.id] = groupStyles`. -/
def groupStyleEmit (noGroupByUser : Bool) (prev : Option Entry) (e : Entry)
    (next : Option Entry) : Option (String × List String) :=
  if e.typeStr == "message.date" || e.typeStr == "channel.event" then none
  else
    match e with
    | .msg m => some (e.propKey, computeGroupStyle noGroupByUser prev m next)
    | _ => none

/-- The `getGroupStyles` loop as a recursion carrying `messages[i-1]`;
`messages[i+1]` is the head of the remainder. The result is the trace
of assignments to `messageGroupStyles` in program order (looked up
with `lookupLast`, matching object assignment semantics). -/
def groupStylesGo (noGroupByUser : Bool) :
    Option Entry → List Entry → List (String × List String)
  | _, [] => []
  | prev, e :: rest =>
    match groupStyleEmit noGroupByUser prev e rest.head? with
    | some kv => kv :: groupStylesGo noGroupByUser (some e) rest
    | none => groupStylesGo noGroupByUser (some e) rest

/-- `getGroupStyles(m)` with the `noGroupByUser` prop. -/
def getGroupStyles (noGroupByUser : Bool) (entries : List Entry) :
    List (String × List String) :=
  groupStylesGo noGroupByUser none entries

/-! ## `getLastReceived` (MessageList.js lines 445–459) -/

/-- The loop `for (let i = l; i > 0; i--)` of `getLastReceived` with
the counter still at `n`: index `n` is examined (out-of-bounds and
status-less entries are skipped), then the counter decreases; the loop
stops before examining index 0. The found value is `messages[i].id`,
itself possibly `undefined`. -/
def lastReceivedLoop (entries : List Entry) : Nat → Option (Option String)
  | 0 => none
  | n + 1 =>
    match entries.get? (n + 1) with
    | some e =>
      if e.statusOpt == some "received" then some e.idOpt
      else lastReceivedLoop entries n
    | none => lastReceivedLoop entries n

/-- `getLastReceived(messages)`: the loop starts at `i = l`
(`messages.length`, one past the end). -/
def getLastReceived (entries : List Entry) : Option (Option String) :=
  lastReceivedLoop entries entries.length

/-! ## The render-time sort (MessageList.js lines 570–573) -/

/-- The comparator `function(a, b) { return a.created_at - b.created_at; }`.
When either entry is a date marker or event wrapper its `created_at`
is `undefined`, the subtraction evaluates to `NaN`, and the ECMAScript
`SortCompare` operation replaces a `NaN` comparator result with `+0` —
so such a pair compares as equal. -/
def cmpCreatedAt (a b : Entry) : Int :=
  match a.createdAtOpt, b.createdAtOpt with
  | some x, some y => (x : Int) - (y : Int)
  | _, _ => 0

/-- Stable insertion of `x` after every already-placed `y` with
`cmpCreatedAt y x ≤ 0`. -/
def sortInsert (x : Entry) : List Entry → List Entry
  | [] => [x]
  | y :: ys => if cmpCreatedAt y x ≤ 0 then y :: sortInsert x ys else x :: y :: ys

/-- `allMessages.sort(comparator)`, modelled as a stable
comparison sort (ECMAScript mandates stability; the theorems below
only evaluate it on arrays that are already sorted for the comparator,
where every conforming stable sort returns its input unchanged). -/
def jsSortByCreatedAt (l : List Entry) : List Entry :=
  l.foldl (fun acc x => sortInsert x acc) []

/-- The effective timestamp the specification sorts by:
`Message.createdAt`, `DateMarker.date`, or `Event.createdAt`. -/
def effTimestamp : Entry → Nat
  | .msg m => m.created_at
  | .dateMarker d => d
  | .channelEvent ev => ev.created_at

/-- Whether consecutive entries are ascending in effective timestamp. -/
def isSortedByEff : List Entry → Bool
  | [] => true
  | [_] => true
  | a :: b :: rest => decide (effTimestamp a ≤ effTimestamp b) && isSortedByEff (b :: rest)

/-- The entry sequence handed to the per-entry renderer in the
non-thread case (`render`, lines 560–658): `insertDates`, then the
`created_at` sort, then the render loop which emits an element for
every entry except messages of type `'message.read'`. -/
def renderedTimeline (eh : String → List ChanEvent) (msgs : List Msg) : List Entry :=
  (jsSortByCreatedAt (insertDates eh msgs)).filter
    (fun e => !(e.typeStr == "message.read"))

/-! ## The new-message transition of `componentDidUpdate`
(MessageList.js lines 256–296) -/

/-- The notification/scroll decision of `componentDidUpdate`, as a
function of the previous and current `messages` props, the local
user's id, the tracked scroll offset, and the current
`newMessagesNotification` state. Returns (whether `scrollToBottom()`
was invoked, the new `newMessagesNotification` state). When either
message array is empty the early `return` fires and nothing changes. -/
def notificationStep (localUserID : String) (prevMsgs currMsgs : List Msg)
    (scrollOffset : Nat) (notif : Bool) : Bool × Bool :=
  match prevMsgs.getLast?, currMsgs.getLast? with
  | some prevLast, some currLast =>
    let hasNewMessage : Bool := currLast.id != prevLast.id
    let userScrolledUp : Bool := decide (scrollOffset > 310)
    let isOwner : Bool := currLast.user == localUserID
    let scrollToBottom : Bool :=
      (hasNewMessage && isOwner) || (hasNewMessage && !userScrolledUp)
    let notifAfterRaise : Bool :=
      if !scrollToBottom && hasNewMessage && !notif then true else notif
    let notifAfterClear : Bool :=
      if scrollToBottom && notifAfterRaise then false else notifAfterRaise
    (scrollToBottom, notifAfterClear)
  | _, _ => (false, notif)

/-! ## `_onMentionsHoverOrClick` (MessageList.js lines 541–558) -/

/-- The parts of the DOM event the handler reads: `e.type`,
`e.target.tagName`, and `e.target.innerHTML`. -/
structure DomEvent where
  etype : String
  tagName : String
  innerHTML : String
  deriving Repr, DecidableEq

/-- `String.prototype.replace(searchChar, '')`: remove the FIRST
occurrence of the character only, as the JavaScript string form of
`replace` does. -/
def removeFirstChar (c : Char) : List Char → List Char
  | [] => []
  | x :: xs => if x = c then xs else x :: removeFirstChar c xs

/-- `s.replace(c, '')` on Lean strings. -/
def jsReplaceOne (s : String) (c : Char) : String :=
  ⟨removeFirstChar c s.data⟩

/-- ASCII lower-casing of one character (tag names are ASCII, so this
matches `String.prototype.toLowerCase()` on them). -/
def jsCharToLower (c : Char) : Char :=
  if 'A' ≤ c ∧ c ≤ 'Z' then Char.ofNat (c.toNat + 32) else c

/-- `s.toLowerCase()` for ASCII strings. -/
def jsToLower (s : String) : String :=
  ⟨s.data.map jsCharToLower⟩

/-- `_onMentionsHoverOrClick(e, mentioned_users)`. The result is the
list of callback invocations performed, as (name of the prop invoked,
user argument) pairs; `none` models passing `undefined`. Both guards
require both props to be present; the matched user is looked up by
name or id but the invocations happen whether or not a user was found
— and the `click` branch also invokes `onMentionsHover` (as the source
does). -/
def onMentionsHoverOrClick (hasHoverProp hasClickProp : Bool) (e : DomEvent)
    (mentionedUsers : List ChatUser) : List (String × Option ChatUser) :=
  if !hasHoverProp || !hasClickProp then []
  else
    let tagName := jsToLower e.tagName
    let textContent := jsReplaceOne e.innerHTML '*'
    if tagName == "strong" && textContent.data.head? == some '@' then
      let userName := jsReplaceOne textContent '@'
      let user := mentionedUsers.find? (fun u => u.name == userName || u.id == userName)
      (if hasHoverProp && e.etype == "mouseover" then [("onMentionsHover", user)] else []) ++
        (if hasClickProp && e.etype == "click" then [("onMentionsHover", user)] else [])
    else []

/-! ## Auxiliary definitions used by the statements below -/

/-- The `type` values `getGroupStyles` skips with `continue`. -/
def ggsSkip (e : Entry) : Bool :=
  e.typeStr == "message.date" || e.typeStr == "channel.event"

/-- The entry preceding the element that follows list `A`, when the
loop entered with previous element `prev`. -/
def prevAfter (prev : Option Entry) : List Entry → Option Entry
  | [] => prev
  | a :: rest => prevAfter (some a) rest

/-- The conditions the grouping claim puts on each of the three
consecutive messages: a plain type (none of the marker / event /
system / error type strings), empty attachments, not soft-deleted. -/
def plainGroupMsg (m : Msg) : Bool :=
  m.type != "message.date" && m.type != "channel.event" && m.type != "system" &&
    m.type != "error" && m.attachments == 0 && m.deleted_at.isNone

/-- Read predicate of the inner `getReadStates` scan:
`msg.updated_at < lastRead` (false when `updated_at` is absent). -/
def qualRead (lr : Nat) (e : Entry) : Bool :=
  match e.updatedAtOpt with
  | some u => decide (u < lr)
  | none => false

/-! ## Concrete data for counterexamples and witnesses -/

/-- A plain message: id `i`, creation time `c`, update time `up`,
author `u`, no attachments, not deleted, status `received`. -/
def plainMsg (i : String) (c : Nat) (up : Nat) (u : String) : Msg :=
  ⟨some i, "regular", c, up, u, 0, none, "received"⟩

/-- First message of the C1 counterexample: Thursday 1970-01-01. -/
def cx1m1 : Msg := plainMsg "m1" 0 0 "u"

/-- Second message of the C1 counterexample: exactly seven days later,
a different calendar day but the same day of the week. -/
def cx1m2 : Msg := plainMsg "m2" 604800000 0 "u"

/-- Empty event history. -/
def ehEmpty : String → List ChanEvent := fun _ => []

/-- Event history of the C2 counterexample: one event, dated before
its anchor message, bucketed under message id `a`. -/
def cx2eh : String → List ChanEvent := fun k => if k == "a" then [⟨5⟩] else []

/-- Anchor message of the C2 counterexample, created at time 1000. -/
def cx2m : Msg := plainMsg "a" 1000 0 "u"

/-- A soft-deleted message (C8 counterexample). -/
def cx8m : Msg := ⟨some "d", "regular", 0, 0, "u", 0, some 5, "received"⟩

/-- Event history of the C7 counterexample: one event in the `first`
bucket, nothing anywhere else. -/
def cx7eh : String → List ChanEvent := fun k => if k == "first" then [⟨0⟩] else []

/-- The C7 counterexample message: it has a non-empty id. -/
def cx7m : Msg := plainMsg "a" 0 0 "u"

/-- The single-message timeline of the C4 counterexample. -/
def cx4m : Msg := plainMsg "a" 0 0 "u"

/-- Four consecutive same-user, attachment-free, regular messages
(C5 counterexample). -/
def cx5m1 : Msg := plainMsg "g1" 0 0 "u"

/-- Second of the four C5 messages. -/
def cx5m2 : Msg := plainMsg "g2" 0 0 "u"

/-- Third of the four C5 messages. -/
def cx5m3 : Msg := plainMsg "g3" 0 0 "u"

/-- Fourth of the four C5 messages. -/
def cx5m4 : Msg := plainMsg "g4" 0 0 "u"

/-- The C9 counterexample event: a hover over `<strong>@bob</strong>`. -/
def cx9e : DomEvent := ⟨"mouseover", "STRONG", "@bob"⟩

/-- A mentioned-users list that does not contain `bob`. -/
def cx9users : List ChatUser := [⟨"u1", "alice"⟩]

/-- A message whose status is not `received` (C10 witness data). -/
def cx10m : Msg := ⟨some "p", "regular", 0, 0, "u", 0, none, "pending"⟩

/-! # Theorems -/

theorem insertDatesGo_eq_specBlocks (eh : String → List ChanEvent) :
    ∀ (msgs : List Msg) (prev : Option Msg),
      insertDatesGo eh prev msgs =
        ((msgs.zip (prev :: msgs.map some)).map (fun p => specBlock eh p.2 p.1)).flatten := by
  intro msgs
  induction msgs with
  | nil => intro prev; simp [insertDatesGo]
  | cons m rest ih =>
    intro prev
    by_cases h : skipMsg m
    · simp [insertDatesGo, h, specBlock, markerCond, ih (some m)]
    · by_cases hd :
        (match prev with
         | none => true
         | some p => dateGetDay m.created_at != dateGetDay p.created_at) = true
      · simp [insertDatesGo, h, specBlock, markerCond, hd, ih (some m)]
      · simp [insertDatesGo, h, specBlock, markerCond, hd, ih (some m)]

/-- **C1** (amended). Date markers are inserted exactly where the
amended rule puts them: each input message, paired with the
immediately preceding *input* message, contributes a block consisting
of an optional `DateMarker` — present iff the message is neither a
read marker nor soft-deleted, and it is the first input message or its
day of the WEEK (`Date.getDay`, not its calendar day) differs from the
preceding input message's — followed by the message and its bucketed
events. In particular a marker need not precede the first
non-read-marker, non-deleted message when that message is not at input
position 0, and no marker separates two days exactly one week apart. -/
theorem c1_date_marker_rule (eh : String → List ChanEvent) (msgs : List Msg) :
    insertDates eh msgs = specTimeline eh msgs :=
  insertDatesGo_eq_specBlocks eh msgs none

/-- **C1** counterexample. Two consecutive messages exactly seven days
apart are on different calendar days, yet the built timeline contains
only the single initial date marker — no marker precedes the second
message, contradicting the claim that a marker is inserted before any
message whose calendar day differs from its predecessor's. -/
theorem c1_counterexample :
    calendarDay cx1m2.created_at ≠ calendarDay cx1m1.created_at ∧
      skipMsg cx1m1 = false ∧ skipMsg cx1m2 = false ∧
      insertDates ehEmpty [cx1m1, cx1m2] =
        [Entry.dateMarker 0, Entry.msg cx1m1, Entry.msg cx1m2] := by
  refine ⟨by decide, by decide, by decide, by decide⟩

theorem filter_isMsgEntry_insertDatesGo (eh : String → List ChanEvent) :
    ∀ (msgs : List Msg) (prev : Option Msg),
      (insertDatesGo eh prev msgs).filter isMsgEntry = msgs.map Entry.msg := by
  intro msgs
  induction msgs with
  | nil => intro prev; simp [insertDatesGo]
  | cons m rest ih =>
    intro prev
    by_cases h : skipMsg m
    · simp [insertDatesGo, h, isMsgEntry, ih]
    · by_cases hd :
        (match prev with
         | none => true
         | some p => dateGetDay m.created_at != dateGetDay p.created_at) = true
      · simp [insertDatesGo, h, hd, ih, isMsgEntry, List.filter_append, List.filter_map]
      · simp [insertDatesGo, h, hd, ih, isMsgEntry, List.filter_append, List.filter_map]

theorem mem_msg_insertDatesGo (eh : String → List ChanEvent) (msgs : List Msg)
    (prev : Option Msg) (m : Msg) (hm : Entry.msg m ∈ insertDatesGo eh prev msgs) :
    m ∈ msgs := by
  have h2 : Entry.msg m ∈ (insertDatesGo eh prev msgs).filter isMsgEntry :=
    List.mem_filter.mpr ⟨hm, rfl⟩
  rw [filter_isMsgEntry_insertDatesGo] at h2
  rcases List.mem_map.mp h2 with ⟨m', hm', he⟩
  cases he
  exact hm'

/-- **C8** (amended). The number of message-object entries in the
timeline built by `insertDates` equals the number of ALL input
messages — soft-deleted messages included, since they are retained
rather than dropped; every input message appears in the output. -/
theorem c8_message_entries_count (eh : String → List ChanEvent) (msgs : List Msg) :
    (insertDates eh msgs).countP isMsgEntry = msgs.length ∧
      ∀ m ∈ msgs, Entry.msg m ∈ insertDates eh msgs := by
  constructor
  · rw [List.countP_eq_length_filter, insertDates, filter_isMsgEntry_insertDatesGo,
      List.length_map]
  · intro m hm
    have h2 : Entry.msg m ∈ (insertDatesGo eh none msgs).filter isMsgEntry := by
      rw [filter_isMsgEntry_insertDatesGo]
      exact List.mem_map_of_mem Entry.msg hm
    exact (List.mem_filter.mp h2).1

/-- Witness for `c8_message_entries_count` at a concrete input. -/
theorem c8_message_entries_count_witness :
    Entry.msg cx1m1 ∈ insertDates ehEmpty [cx1m1] :=
  (c8_message_entries_count ehEmpty [cx1m1]).2 cx1m1 (by decide)

/-- **C8** counterexample. A single soft-deleted input message yields
one message-type entry in the built timeline, while the number of
non-deleted input messages is zero — so the count equals the total
input count, not the non-deleted count. -/
theorem c8_counterexample :
    ([cx8m].filter (fun m => m.deleted_at.isNone)).length = 0 ∧
      (insertDates ehEmpty [cx8m]).countP isMsgEntry = 1 := by
  refine ⟨by decide, by decide⟩

theorem jsEventKey_ne_first (m : Msg) (h1 : idFalsy m.id = false)
    (h2 : m.id ≠ some "first") : jsEventKey m ≠ "first" := by
  cases hid : m.id with
  | none => rw [hid] at h1; simp [idFalsy] at h1
  | some s =>
    have hk : jsEventKey m = s := by
      unfold jsEventKey
      rw [h1, hid]
      simp
    rw [hk]
    intro hc
    exact h2 (by rw [hid, hc])

theorem insertDatesGo_first_bucket_unused (eh : String → List ChanEvent) :
    ∀ (msgs : List Msg) (prev : Option Msg),
      (∀ m ∈ msgs, idFalsy m.id = false ∧ m.id ≠ some "first") →
      insertDatesGo eh prev msgs =
        insertDatesGo (fun k => if k == "first" then [] else eh k) prev msgs := by
  intro msgs
  induction msgs with
  | nil => intro prev _; rfl
  | cons m rest ih =>
    intro prev hall
    have hm := hall m (List.mem_cons_self m rest)
    have hkey : jsEventKey m ≠ "first" := jsEventKey_ne_first m hm.1 hm.2
    have hrest : ∀ m' ∈ rest, idFalsy m'.id = false ∧ m'.id ≠ some "first" :=
      fun m' hm' => hall m' (List.mem_cons_of_mem m hm')
    by_cases h : skipMsg m
    · simp [insertDatesGo, h, ih (some m) hrest]
    · simp only [insertDatesGo, h, ih (some m) hrest]
      simp [hkey]

/-- **C7** (amended). The events bucketed under the sentinel `first`
key are looked up via `message.id || 'first'`, so they are appended
after every non-read-marker, non-deleted message whose `id` is falsy
(absent or empty) or literally `"first"` — and after no other message.
In particular, when every input message has a truthy id other than
`"first"`, the `first` bucket is never consulted at all: emptying it
does not change the built timeline. -/
theorem c7_first_bucket_unused (eh : String → List ChanEvent) (msgs : List Msg)
    (h : ∀ m ∈ msgs, idFalsy m.id = false ∧ m.id ≠ some "first") :
    insertDates eh msgs =
      insertDates (fun k => if k == "first" then [] else eh k) msgs :=
  insertDatesGo_first_bucket_unused eh msgs none h

/-- Witness for `c7_first_bucket_unused` at a concrete input. -/
theorem c7_first_bucket_unused_witness :
    insertDates cx7eh [cx7m] =
      insertDates (fun k => if k == "first" then [] else cx7eh k) [cx7m] :=
  c7_first_bucket_unused cx7eh [cx7m] (by decide)

/-- **C7** counterexample. With a single message that has an id and a
non-empty `first` event bucket, the built timeline contains NO event
wrapper at all — the `first`-bucket events are not appended after the
very first message, contradicting the claim that they are appended
exactly once. -/
theorem c7_counterexample :
    cx7eh "first" = [⟨0⟩] ∧
      (insertDates cx7eh [cx7m]).countP isEventEntry = 0 ∧
      insertDates cx7eh [cx7m] = [Entry.dateMarker 0, Entry.msg cx7m] := by
  refine ⟨by decide, by decide, by decide⟩

theorem cmp_le_of_created_le (a b : Entry)
    (h : ∀ x y, a = Entry.msg x → b = Entry.msg y → x.created_at ≤ y.created_at) :
    cmpCreatedAt a b ≤ 0 := by
  cases a with
  | msg x =>
    cases b with
    | msg y =>
      have hxy := h x y rfl rfl
      simp only [cmpCreatedAt, Entry.createdAtOpt]
      omega
    | dateMarker d => simp [cmpCreatedAt, Entry.createdAtOpt]
    | channelEvent ev => simp [cmpCreatedAt, Entry.createdAtOpt]
  | dateMarker d => cases b <;> simp [cmpCreatedAt, Entry.createdAtOpt]
  | channelEvent ev => cases b <;> simp [cmpCreatedAt, Entry.createdAtOpt]

theorem pairwise_cmp_of_single_msg (l : List Entry) (m : Msg)
    (h : ∀ a ∈ l, a = Entry.msg m ∨ isMsgEntry a = false) :
    l.Pairwise (fun a b => cmpCreatedAt a b ≤ 0) := by
  apply List.pairwise_of_forall_mem_list
  intro a ha b hb
  apply cmp_le_of_created_le
  intro x y hax hby
  rcases h a ha with h1 | h1
  · rcases h b hb with h2 | h2
    · rw [hax] at h1
      rw [hby] at h2
      cases h1
      cases h2
      exact le_refl _
    · rw [hby] at h2
      simp [isMsgEntry] at h2
  · rw [hax] at h1
    simp [isMsgEntry] at h1

theorem mem_block_cases {m : Msg} {c : Bool} {evs : List ChanEvent} {a : Entry}
    (h : a ∈ (if c = true then [Entry.dateMarker m.created_at, Entry.msg m]
        else [Entry.msg m]) ++ evs.map Entry.channelEvent) :
    a = Entry.msg m ∨ isMsgEntry a = false := by
  rcases List.mem_append.mp h with h1 | h1
  · split at h1
    · rcases List.mem_cons.mp h1 with h2 | h2
      · right; rw [h2]; rfl
      · left; simpa using h2
    · left; simpa using h1
  · rcases List.mem_map.mp h1 with ⟨ev, _, hev⟩
    right; rw [← hev]; rfl

theorem pairwise_cmp_insertDatesGo (eh : String → List ChanEvent) :
    ∀ (msgs : List Msg) (prev : Option Msg),
      msgs.Pairwise (fun a b => a.created_at ≤ b.created_at) →
      (insertDatesGo eh prev msgs).Pairwise (fun a b => cmpCreatedAt a b ≤ 0) := by
  intro msgs
  induction msgs with
  | nil => intro prev _; simp [insertDatesGo]
  | cons m rest ih =>
    intro prev hp
    rcases List.pairwise_cons.mp hp with ⟨hhead, htail⟩
    have hrec := ih (some m) htail
    have hcross : ∀ a, (a = Entry.msg m ∨ isMsgEntry a = false) →
        ∀ b ∈ insertDatesGo eh (some m) rest, cmpCreatedAt a b ≤ 0 := by
      intro a ha b hb
      apply cmp_le_of_created_le
      intro x y hax hby
      have hy : y ∈ rest := by
        apply mem_msg_insertDatesGo eh rest (some m) y
        rw [← hby]
        exact hb
      rcases ha with h1 | h1
      · rw [hax] at h1
        cases h1
        exact hhead y hy
      · rw [hax] at h1
        simp [isMsgEntry] at h1
    by_cases h : skipMsg m
    · simp only [insertDatesGo, h, if_true]
      exact List.pairwise_cons.mpr ⟨hcross (Entry.msg m) (Or.inl rfl), hrec⟩
    · simp only [insertDatesGo, h]
      rw [if_neg (by simp [h])]
      apply List.pairwise_append.mpr
      refine ⟨?_, hrec, ?_⟩
      · exact pairwise_cmp_of_single_msg _ m (fun a ha => mem_block_cases ha)
      · intro a ha b hb
        exact hcross a (mem_block_cases ha) b hb

theorem sortInsert_append (x : Entry) :
    ∀ acc : List Entry, (∀ y ∈ acc, cmpCreatedAt y x ≤ 0) →
      sortInsert x acc = acc ++ [x] := by
  intro acc
  induction acc with
  | nil => intro _; rfl
  | cons y ys ih =>
    intro h
    have hy : cmpCreatedAt y x ≤ 0 := h y (List.mem_cons_self y ys)
    simp only [sortInsert, if_pos hy]
    rw [ih (fun z hz => h z (List.mem_cons_of_mem y hz))]
    rfl

theorem foldl_sortInsert_sorted :
    ∀ (l acc : List Entry),
      l.Pairwise (fun a b => cmpCreatedAt a b ≤ 0) →
      (∀ x ∈ l, ∀ y ∈ acc, cmpCreatedAt y x ≤ 0) →
      l.foldl (fun acc x => sortInsert x acc) acc = acc ++ l := by
  intro l
  induction l with
  | nil => intro acc _ _; simp
  | cons x xs ih =>
    intro acc hl hcross
    rcases List.pairwise_cons.mp hl with ⟨hhead, htail⟩
    simp only [List.foldl_cons]
    rw [sortInsert_append x acc (hcross x (List.mem_cons_self x xs))]
    rw [ih (acc ++ [x]) htail ?_]
    · simp
    · intro z hz y hy
      rcases List.mem_append.mp hy with h1 | h1
      · exact hcross z (List.mem_cons_of_mem x hz) y h1
      · have : y = x := by simpa using h1
        rw [this]
        exact hhead z hz

theorem jsSort_eq_self (l : List Entry)
    (hl : l.Pairwise (fun a b => cmpCreatedAt a b ≤ 0)) :
    jsSortByCreatedAt l = l := by
  have := foldl_sortInsert_sorted l [] hl (by simp)
  simpa [jsSortByCreatedAt] using this

/-- **C2** (amended). The render-time sort compares only the
`created_at` field; date markers and event wrappers have no such
field, so they compare as equal to everything and the sort neither
reads `DateMarker.date` nor `Event.createdAt`. When the input messages
are ascending in `created_at` — the normal case — the whole timeline
is already sorted for that comparator, the (stable) sort returns it
unchanged, and only the message entries are guaranteed to be mutually
ascending in effective timestamp; markers and events stay where
`insertDates` put them. -/
theorem c2_sort_reads_created_at_only (eh : String → List ChanEvent) (msgs : List Msg)
    (h : msgs.Pairwise (fun a b => a.created_at ≤ b.created_at)) :
    jsSortByCreatedAt (insertDates eh msgs) = insertDates eh msgs ∧
      ((insertDates eh msgs).filter isMsgEntry).Pairwise
        (fun a b => effTimestamp a ≤ effTimestamp b) := by
  constructor
  · exact jsSort_eq_self _ (pairwise_cmp_insertDatesGo eh msgs none h)
  · rw [insertDates, filter_isMsgEntry_insertDatesGo, List.pairwise_map]
    apply h.imp
    intro a b hab
    simpa [effTimestamp] using hab

/-- Witness for `c2_sort_reads_created_at_only` at a concrete input. -/
theorem c2_sort_reads_created_at_only_witness :
    jsSortByCreatedAt (insertDates cx2eh [cx2m]) = insertDates cx2eh [cx2m] :=
  (c2_sort_reads_created_at_only cx2eh [cx2m] (by decide)).1

/-- **C2** counterexample. One message (created at 1000) with one
bucketed event created earlier (at 5): every comparator call returns 0
(the marker and the wrapper have no `created_at`), so the ECMAScript
stable sort returns the array unchanged and the sequence handed to the
renderer is NOT ascending in effective timestamp — the event wrapper
with timestamp 5 renders after entries with timestamp 1000. -/
theorem c2_counterexample :
    isSortedByEff (renderedTimeline cx2eh [cx2m]) = false := by decide

/-- **C6**. The new-message transition of `componentDidUpdate`: when
both the previous and current message arrays are non-empty and the
last message's identity changed, (i) a new last message authored by
the local user forces a scroll to bottom and leaves the notification
flag false, (ii) a new last message by another user while the tracked
scroll offset exceeds the 310-unit threshold and no notification is
pending raises the flag without auto-scrolling, and (iii) if either
array is empty, nothing scrolls and the flag is unchanged. -/
theorem c6_notification_transitions (localUser : String)
    (prevMsgs currMsgs : List Msg) (off : Nat) (notif : Bool) :
    (∀ p c, prevMsgs.getLast? = some p → currMsgs.getLast? = some c →
        c.id ≠ p.id → c.user = localUser →
        notificationStep localUser prevMsgs currMsgs off notif = (true, false)) ∧
      (∀ p c, prevMsgs.getLast? = some p → currMsgs.getLast? = some c →
        c.id ≠ p.id → c.user ≠ localUser → off > 310 → notif = false →
        notificationStep localUser prevMsgs currMsgs off notif = (false, true)) ∧
      ((prevMsgs = [] ∨ currMsgs = []) →
        notificationStep localUser prevMsgs currMsgs off notif = (false, notif)) := by
  refine ⟨?_, ?_, ?_⟩
  · intro p c hp hc hid huser
    simp only [notificationStep, hp, hc]
    have h1 : (c.id != p.id) = true := bne_iff_ne.mpr hid
    have h2 : (c.user == localUser) = true := beq_iff_eq.mpr huser
    simp only [h1, h2]
    cases notif <;> simp
  · intro p c hp hc hid huser hoff hnotif
    simp only [notificationStep, hp, hc]
    have h1 : (c.id != p.id) = true := bne_iff_ne.mpr hid
    have h2 : (c.user == localUser) = false := beq_eq_false_iff_ne.mpr huser
    have h3 : decide (off > 310) = true := decide_eq_true hoff
    simp [h1, h2, h3, hnotif]
  · intro hemp
    rcases hemp with he | he <;> rw [he] <;> simp [notificationStep]

/-- Witness for `c6_notification_transitions` at a concrete input:
own new message at the end forces scroll and a clear flag. -/
theorem c6_notification_transitions_witness :
    notificationStep "u" [cx1m1] [cx1m1, cx1m2] 0 false = (true, false) :=
  (c6_notification_transitions "u" [cx1m1] [cx1m1, cx1m2] 0 false).1
    cx1m1 cx1m2 (by decide) (by decide) (by decide) (by decide)

/-- **C9** (amended). When a hover event on a `<strong>@…</strong>`
target names a user that is NOT found in the message's mentioned-users
list, the handler still invokes the `onMentionsHover` callback — it
passes the `undefined` result of the failed lookup instead of skipping
the call (both mention props must be set for the handler to run at
all). -/
theorem c9_no_match_still_invokes (e : DomEvent) (mentioned : List ChatUser)
    (htag : jsToLower e.tagName = "strong")
    (hat : (jsReplaceOne e.innerHTML '*').data.head? = some '@')
    (hfind : mentioned.find? (fun u =>
        u.name == jsReplaceOne (jsReplaceOne e.innerHTML '*') '@' ||
          u.id == jsReplaceOne (jsReplaceOne e.innerHTML '*') '@') = none)
    (htype : e.etype = "mouseover") :
    onMentionsHoverOrClick true true e mentioned = [("onMentionsHover", none)] := by
  simp only [onMentionsHoverOrClick, htag, hat, hfind, htype]
  simp

/-- Witness for `c9_no_match_still_invokes` at a concrete input. -/
theorem c9_no_match_still_invokes_witness :
    onMentionsHoverOrClick true true cx9e cx9users = [("onMentionsHover", none)] :=
  c9_no_match_still_invokes cx9e cx9users (by decide) (by decide) (by decide) (by decide)

/-- **C9** counterexample. Hovering `<strong>@bob</strong>` when the
mentioned-users list contains only `alice`: no user matches, yet the
`onMentionsHover` callback IS invoked (with `undefined`) — the claim
that no mention callback fires on a failed lookup is false. -/
theorem c9_counterexample :
    onMentionsHoverOrClick true true cx9e cx9users ≠ [] ∧
      onMentionsHoverOrClick true true cx9e cx9users = [("onMentionsHover", none)] := by
  refine ⟨by decide, by decide⟩

theorem lastReceivedLoop_eq (entries : List Entry) :
    ∀ n : Nat,
      lastReceivedLoop entries n =
        (((entries.take (n + 1)).drop 1).reverse.find?
            (fun e => e.statusOpt == some "received")).map Entry.idOpt := by
  intro n
  induction n with
  | zero => cases entries <;> simp [lastReceivedLoop]
  | succ n ih =>
    cases hget : entries.get? (n + 1) with
    | some e =>
      have hlen : n + 1 < entries.length := by
        by_contra hc
        rw [List.get?_eq_none.mpr (by omega)] at hget
        exact Option.noConfusion hget
      have htake : entries.take (n + 2) = entries.take (n + 1) ++ [e] := by
        rw [List.take_succ]
        rw [List.get?_eq_getElem?] at hget
        rw [hget]
        rfl
      have hlen1 : 1 ≤ (entries.take (n + 1)).length := by
        rw [List.length_take]
        omega
      simp only [lastReceivedLoop, hget]
      rw [htake, List.drop_append_of_le_length hlen1, List.reverse_append]
      simp only [List.reverse_cons, List.reverse_nil, List.nil_append,
        List.singleton_append, List.find?_cons]
      cases hp : (e.statusOpt == some "received") with
      | true => simp
      | false => simp [ih]
    | none =>
      have hlen : entries.length ≤ n + 1 := List.get?_eq_none.mp hget
      have h1 : entries.take (n + 2) = entries := List.take_of_length_le (by omega)
      have h2 : entries.take (n + 1) = entries := List.take_of_length_le hlen
      simp only [lastReceivedLoop, hget]
      rw [ih, h1, h2]

/-- **C10**. `getLastReceived` starts its backward scan at index
`length` (out of bounds, skipped) and stops before index 0, so it
scans exactly positions 1 … length−1 and returns the id of the LAST
entry in that range whose status is `received`; consequently a
sequence whose only `received` entry is its first element yields
`null`. -/
theorem c10_last_received_skips_first (entries : List Entry) :
    getLastReceived entries =
      ((entries.drop 1).reverse.find?
          (fun e => e.statusOpt == some "received")).map Entry.idOpt ∧
      ((∀ e ∈ entries.drop 1, (e.statusOpt == some "received") = false) →
        getLastReceived entries = none) := by
  have hmain : getLastReceived entries =
      ((entries.drop 1).reverse.find?
          (fun e => e.statusOpt == some "received")).map Entry.idOpt := by
    rw [getLastReceived, lastReceivedLoop_eq, List.take_of_length_le (by omega)]
  refine ⟨hmain, ?_⟩
  intro hnone
  rw [hmain]
  have hfind : (entries.drop 1).reverse.find?
      (fun e => e.statusOpt == some "received") = none := by
    apply List.find?_eq_none.mpr
    intro x hx
    simp [hnone x (List.mem_reverse.mp hx)]
  rw [hfind]
  rfl

/-- Witness for `c10_last_received_skips_first`: the only `received`
message sits at index 0, so the scan (which never reaches index 0)
returns `null`. -/
theorem c10_last_received_skips_first_witness :
    getLastReceived [Entry.msg cx1m1, Entry.msg cx10m] = none :=
  (c10_last_received_skips_first [Entry.msg cx1m1, Entry.msg cx10m]).2 (by decide)

theorem objGet_objSet_self {V : Type} (obj : List (String × V)) (k : String) (v : V) :
    objGet (objSet obj k v) k = some v := by
  induction obj with
  | nil => simp [objSet, objGet]
  | cons p rest ih =>
    by_cases h : k = p.1
    · simp [objSet, h, objGet]
    · simp only [objSet]
      rw [if_neg h]
      simp only [objGet, List.find?_cons]
      have : (p.1 == k) = false := beq_eq_false_iff_ne.mpr (fun hc => h hc.symm)
      simp only [this]
      exact ih

theorem objGet_objSet_ne {V : Type} (obj : List (String × V)) (k k' : String) (v : V)
    (h : k' ≠ k) : objGet (objSet obj k v) k' = objGet obj k' := by
  induction obj with
  | nil =>
    simp [objSet, objGet, List.find?_cons,
      beq_eq_false_iff_ne.mpr (fun hc => h hc.symm)]
  | cons p rest ih =>
    by_cases hp : k = p.1
    · simp only [objSet]
      rw [if_pos hp]
      simp only [objGet, List.find?_cons]
      have h1 : (k == k') = false := beq_eq_false_iff_ne.mpr (fun hc => h hc.symm)
      have h2 : (p.1 == k') = false := by
        rw [← hp]
        exact h1
      simp [h1, h2]
    · simp only [objSet]
      rw [if_neg hp]
      simp only [objGet, List.find?_cons]
      cases hpk : (p.1 == k') with
      | true => simp
      | false =>
        simp only [Bool.false_eq_true, if_false]
        exact ih

theorem mem_keys_objSet {V : Type} (obj : List (String × V)) (k : String) (v : V)
    (k' : String) :
    k' ∈ (objSet obj k v).map Prod.fst ↔ k' = k ∨ k' ∈ obj.map Prod.fst := by
  induction obj with
  | nil => simp [objSet]
  | cons p rest ih =>
    by_cases h : k = p.1
    · simp only [objSet]
      rw [if_pos h]
      simp only [List.map_cons, List.mem_cons]
      constructor
      · rintro (h1 | h1)
        · exact Or.inl h1
        · exact Or.inr (Or.inr h1)
      · rintro (h1 | h1 | h1)
        · exact Or.inl h1
        · rw [← h] at h1
          exact Or.inl h1
        · exact Or.inr h1
    · simp only [objSet]
      rw [if_neg h]
      simp only [List.map_cons, List.mem_cons, ih]
      tauto

theorem objGet_isSome_iff_mem_keys {V : Type} (obj : List (String × V)) (k : String) :
    (objGet obj k).isSome ↔ k ∈ obj.map Prod.fst := by
  induction obj with
  | nil => simp [objGet]
  | cons p rest ih =>
    simp only [objGet, List.find?_cons, List.map_cons, List.mem_cons]
    cases hp : (p.1 == k) with
    | true =>
      have hk : k = p.1 := (beq_iff_eq.mp hp).symm
      simp [hk]
    | false =>
      simp only [Bool.false_eq_true, if_false]
      rw [← objGet] at *
      simp only [ih]
      constructor
      · exact Or.inr
      · rintro (h1 | h1)
        · exact absurd (beq_iff_eq.mpr h1.symm) (by simp [hp])
        · exact h1

theorem foldl_lastAssign {α β : Type} (q : α → Bool) (f : α → β) :
    ∀ (l : List α) (init : Option β),
      l.foldl (fun acc x => if q x then some (f x) else acc) init =
        (match l.reverse.find? q with
         | some x => some (f x)
         | none => init) := by
  intro l
  induction l with
  | nil => intro init; simp
  | cons x l ih =>
    intro init
    simp only [List.foldl_cons]
    rw [ih]
    rw [List.reverse_cons, List.find?_append]
    cases hfind : l.reverse.find? q with
    | some y => rfl
    | none =>
      cases hq : q x <;> simp [List.find?, hq]

theorem reverse_find_eq_filter_getLast {α : Type} (q : α → Bool) (l : List α) :
    l.reverse.find? q = (l.filter q).getLast? := by
  rw [← List.filter_head? q l.reverse, List.filter_reverse,
    List.getLast?_eq_head?_reverse]

theorem lastReadTarget_eq_foldl (entries : List Entry) (lr : Nat) :
    lastReadTarget entries lr =
      entries.foldl (fun acc e => if qualRead lr e then some e.idOpt else acc) none := by
  unfold lastReadTarget
  apply List.foldl_ext
  intro acc e _
  cases he : e.updatedAtOpt with
  | some u => simp [qualRead, he]
  | none => simp [qualRead, he]

theorem lastReadTarget_eq (entries : List Entry) (lr : Nat) :
    lastReadTarget entries lr =
      ((entries.filter (qualRead lr)).getLast?).map Entry.idOpt := by
  rw [lastReadTarget_eq_foldl, foldl_lastAssign, reverse_find_eq_filter_getLast]
  cases h : (entries.filter (qualRead lr)).getLast? <;> simp

theorem target_mem_propKeys (entries : List Entry) (lr : Nat) (mid : String)
    (h : lastReadTarget entries lr = some (some mid)) :
    mid ∈ entries.map Entry.propKey := by
  rw [lastReadTarget_eq] at h
  cases hlast : (entries.filter (qualRead lr)).getLast? with
  | none => rw [hlast] at h; exact Option.noConfusion h
  | some e =>
    rw [hlast] at h
    have hid : e.idOpt = some mid := by simpa using h
    have he : e ∈ entries := List.mem_of_mem_filter (List.mem_of_mem_getLast? hlast)
    apply List.mem_map.mpr
    refine ⟨e, he, ?_⟩
    rw [Entry.propKey, hid]
    rfl

theorem objGet_readInit_aux :
    ∀ (entries : List Entry) (acc : List (String × List ChatUser)) (k : String),
      objGet (entries.foldl (fun o e => objSet o e.propKey []) acc) k =
        if k ∈ entries.map Entry.propKey then some [] else objGet acc k := by
  intro entries
  induction entries with
  | nil => intro acc k; simp
  | cons e rest ih =>
    intro acc k
    simp only [List.foldl_cons]
    rw [ih]
    by_cases hk : k ∈ rest.map Entry.propKey
    · rw [if_pos hk, if_pos (by simp [hk])]
    · rw [if_neg hk]
      by_cases hke : k = e.propKey
      · rw [hke, objGet_objSet_self, if_pos (by simp [hke])]
      · rw [objGet_objSet_ne _ _ _ _ hke, if_neg (by simp [hke, hk])]

theorem objGet_readInit (entries : List Entry) (k : String) :
    objGet (readInit entries) k =
      if k ∈ entries.map Entry.propKey then some [] else none := by
  rw [readInit, objGet_readInit_aux]
  rfl

theorem readLoop_isSome_invariant (entries : List Entry) :
    ∀ (read : List ReadRecord) (obj : List (String × List ChatUser)),
      (∀ k, (objGet obj k).isSome ↔ k ∈ entries.map Entry.propKey) →
      ∀ k, (objGet (readLoop entries obj read) k).isSome ↔
        k ∈ entries.map Entry.propKey := by
  intro read
  induction read with
  | nil => intro obj hobj k; exact hobj k
  | cons r rest ih =>
    intro obj hobj k
    cases hlr : r.last_read with
    | none => simp only [readLoop, hlr]; exact hobj k
    | some lr =>
      simp only [readLoop, hlr]
      cases htgt : lastReadTarget entries lr with
      | none => exact ih obj hobj k
      | some optId =>
        cases optId with
        | none => exact ih obj hobj k
        | some mid =>
          apply ih
          intro k'
          by_cases hk' : k' = mid
          · rw [hk', objGet_objSet_self]
            simp only [Option.isSome_some, true_iff]
            exact target_mem_propKeys entries lr mid htgt
          · rw [objGet_objSet_ne _ _ _ _ hk']
            exact hobj k'

theorem specReadBy_cons_none (r : ReadRecord) (rest : List ReadRecord)
    (msgs : List Msg) (i : Option String) (hlr : r.last_read = none) :
    specReadBy (r :: rest) msgs i = [] := by
  simp [specReadBy, List.takeWhile_cons, hlr]

theorem specReadBy_cons_some (r : ReadRecord) (rest : List ReadRecord)
    (msgs : List Msg) (i : Option String) (lr : Nat) (hlr : r.last_read = some lr) :
    specReadBy (r :: rest) msgs i =
      (if specTarget msgs lr = some i then [r.user] else []) ++
        specReadBy rest msgs i := by
  simp only [specReadBy, List.takeWhile_cons, hlr, Option.isSome_some, if_true,
    List.filterMap_cons]
  by_cases h : specTarget msgs lr = some i
  · simp [h]
  · simp [h]

theorem lastReadTarget_map_msg (msgs : List Msg) (lr : Nat) :
    lastReadTarget (msgs.map Entry.msg) lr = specTarget msgs lr := by
  rw [lastReadTarget_eq, specTarget, List.filter_map, List.getLast?_map]
  have hq : (qualRead lr ∘ Entry.msg) = fun m => decide (m.updated_at < lr) := by
    funext m
    simp [qualRead, Entry.updatedAtOpt, Function.comp]
  rw [hq]
  cases h : (msgs.filter (fun m => decide (m.updated_at < lr))).getLast? <;>
    simp [Entry.idOpt]

theorem readLoop_takeWhile (entries : List Entry) :
    ∀ (read : List ReadRecord) (obj : List (String × List ChatUser)),
      readLoop entries obj read =
        readLoop entries obj (read.takeWhile (fun r => r.last_read.isSome)) := by
  intro read
  induction read with
  | nil => intro obj; rfl
  | cons r rest ih =>
    intro obj
    cases hlr : r.last_read with
    | none => simp [readLoop, List.takeWhile_cons, hlr]
    | some lr =>
      simp only [readLoop, List.takeWhile_cons, hlr, Option.isSome_some, if_true]
      exact ih _

theorem readLoop_objGet_msgs (msgs : List Msg) :
    ∀ (read : List ReadRecord) (obj : List (String × List ChatUser))
      (i : String) (s : List ChatUser),
      objGet obj i = some s →
      objGet (readLoop (msgs.map Entry.msg) obj read) i =
        some (s ++ specReadBy read msgs (some i)) := by
  intro read
  induction read with
  | nil =>
    intro obj i s hs
    simp [readLoop, specReadBy, hs]
  | cons r rest ih =>
    intro obj i s hs
    cases hlr : r.last_read with
    | none =>
      rw [specReadBy_cons_none r rest msgs (some i) hlr]
      simp only [readLoop, hlr]
      simp [hs]
    | some lr =>
      rw [specReadBy_cons_some r rest msgs (some i) lr hlr]
      simp only [readLoop, hlr, lastReadTarget_map_msg]
      cases htgt : specTarget msgs lr with
      | none =>
        rw [if_neg (by simp)]
        simpa using ih obj i s hs
      | some optId =>
        cases optId with
        | none =>
          rw [if_neg (by simp)]
          simpa using ih obj i s hs
        | some mid =>
          by_cases hmi : mid = i
          · subst hmi
            rw [if_pos rfl]
            have hobj' : objGet (objSet obj mid ((objGet obj mid).getD [] ++ [r.user]))
                mid = some (s ++ [r.user]) := by
              rw [objGet_objSet_self, hs]
              rfl
            rw [ih _ mid (s ++ [r.user]) hobj']
            simp
          · rw [if_neg (by simp [hmi])]
            have hobj' : objGet (objSet obj mid ((objGet obj mid).getD [] ++ [r.user]))
                i = some s := by
              rw [objGet_objSet_ne _ _ _ _ (fun hc => hmi hc.symm)]
              exact hs
            simpa using ih _ i s hobj'

/-- **C3**. `getReadStates` processes the read records in iteration
order and stops at the first record whose `last_read` is null (the
`break`): the result only depends on the records before the first
null. For each surviving record, its user is appended to the read-by
list stored under the id of the LAST message of the sequence whose
`updated_at` is strictly before that record's `last_read` (no append
when no message qualifies, or when the qualifying message has no id);
accumulation order follows record iteration order. -/
theorem c3_read_state_algorithm (read : List ReadRecord) (msgs : List Msg) :
    getReadStates read (msgs.map Entry.msg) =
      getReadStates (read.takeWhile (fun r => r.last_read.isSome)) (msgs.map Entry.msg) ∧
      ∀ m ∈ msgs, ∀ s, m.id = some s →
        objGet (getReadStates read (msgs.map Entry.msg)) s =
          some (specReadBy read msgs (some s)) := by
  constructor
  · exact readLoop_takeWhile (msgs.map Entry.msg) read (readInit (msgs.map Entry.msg))
  · intro m hm s hms
    have hinit : objGet (readInit (msgs.map Entry.msg)) s = some [] := by
      rw [objGet_readInit, if_pos]
      apply List.mem_map.mpr
      refine ⟨Entry.msg m, List.mem_map_of_mem Entry.msg hm, ?_⟩
      simp [Entry.propKey, Entry.idOpt, hms]
    have := readLoop_objGet_msgs msgs read (readInit (msgs.map Entry.msg)) s [] hinit
    simpa using this

/-- Witness for `c3_read_state_algorithm` at a concrete input: one
message (updated at 10) and one record read at 20 — the record's user
is attributed to that message. -/
theorem c3_read_state_algorithm_witness :
    objGet (getReadStates [⟨some 20, ⟨"u2", "Bob"⟩⟩]
        ([plainMsg "a" 0 10 "u"].map Entry.msg)) "a" =
      some (specReadBy [⟨some 20, ⟨"u2", "Bob"⟩⟩] [plainMsg "a" 0 10 "u"] (some "a")) :=
  (c3_read_state_algorithm [⟨some 20, ⟨"u2", "Bob"⟩⟩] [plainMsg "a" 0 10 "u"]).2
    (plainMsg "a" 0 10 "u") (by decide) "a" (by decide)

/-- **C4** (amended). The keys of the computed read index are exactly
the JavaScript property keys of ALL timeline entries of the cycle —
each Message entry contributes its id, while date markers, event
wrappers and id-less messages all contribute the single literal key
`"undefined"` (from `readData[undefined]`). Every key — in particular
every Message entry's key — maps to a present, possibly empty array,
never to a missing binding. -/
theorem c4_read_index_keys (read : List ReadRecord) (entries : List Entry) :
    (∀ k, k ∈ (getReadStates read entries).map Prod.fst ↔
        k ∈ entries.map Entry.propKey) ∧
      ∀ e ∈ entries, ∃ l, objGet (getReadStates read entries) e.propKey = some l := by
  have hbase : ∀ k, (objGet (readInit entries) k).isSome ↔
      k ∈ entries.map Entry.propKey := by
    intro k
    rw [objGet_readInit]
    by_cases h : k ∈ entries.map Entry.propKey <;> simp [h]
  have hinv := readLoop_isSome_invariant entries read (readInit entries) hbase
  constructor
  · intro k
    rw [← objGet_isSome_iff_mem_keys]
    exact hinv k
  · intro e he
    have hsome : (objGet (getReadStates read entries) e.propKey).isSome :=
      (hinv _).mpr (List.mem_map_of_mem _ he)
    exact Option.isSome_iff_exists.mp hsome

/-- Witness for `c4_read_index_keys` at a concrete input. -/
theorem c4_read_index_keys_witness :
    ∃ l, objGet (getReadStates [] (insertDates ehEmpty [cx4m]))
        (Entry.msg cx4m).propKey = some l :=
  (c4_read_index_keys [] (insertDates ehEmpty [cx4m])).2 (Entry.msg cx4m) (by decide)

/-- **C4** counterexample. A one-message timeline also contains the
date marker inserted before the message; `readData[message.id] = []`
runs for the marker too, creating the extra key `"undefined"` — so the
key set is strictly larger than the set of Message-entry ids,
contradicting the claim that they are exactly equal. -/
theorem c4_counterexample :
    (getReadStates [] (insertDates ehEmpty [cx4m])).map Prod.fst =
        ["undefined", "a"] ∧
      ((insertDates ehEmpty [cx4m]).filter isMsgEntry).map Entry.propKey = ["a"] := by
  refine ⟨by decide, by decide⟩

theorem plainGroupMsg_spec (m : Msg) (h : plainGroupMsg m = true) :
    m.type ≠ "message.date" ∧ m.type ≠ "channel.event" ∧ m.type ≠ "system" ∧
      m.type ≠ "error" ∧ m.attachments = 0 ∧ m.deleted_at = none := by
  simp only [plainGroupMsg, Bool.and_eq_true, bne_iff_ne, beq_iff_eq,
    Option.isNone_iff_eq_none] at h
  tauto

theorem ggsSkip_false_of_types (m : Msg) (h1 : m.type ≠ "message.date")
    (h2 : m.type ≠ "channel.event") : ggsSkip (Entry.msg m) = false := by
  simp [ggsSkip, Entry.typeStr, h1, h2]

theorem isGroupBoundary_false_of_plain (u : String) (m : Msg)
    (h : plainGroupMsg m = true) (hu : m.user = u) :
    isGroupBoundary u (Entry.msg m) = false := by
  obtain ⟨h1, h2, h3, h4, h5, h6⟩ := plainGroupMsg_spec m h
  simp [isGroupBoundary, Entry.typeStr, h1, h2, h3, h4, h5, h6, hu]

theorem groupStyleCore_top (m : Msg) (h : plainGroupMsg m = true) :
    groupStyleCore false true false m = ["top"] := by
  obtain ⟨_, _, _, h4, h5, h6⟩ := plainGroupMsg_spec m h
  simp [groupStyleCore, h4, h5, h6]

theorem groupStyleCore_middle (m : Msg) (h : plainGroupMsg m = true) :
    groupStyleCore false false false m = ["middle"] := by
  obtain ⟨_, _, _, h4, h5, h6⟩ := plainGroupMsg_spec m h
  simp [groupStyleCore, h4, h5, h6]

theorem groupStyleCore_bottom (m : Msg) (h : plainGroupMsg m = true) :
    groupStyleCore false false true m = ["bottom"] := by
  obtain ⟨_, _, _, h4, h5, h6⟩ := plainGroupMsg_spec m h
  simp [groupStyleCore, h4, h5, h6]

theorem groupStyleCore_attach (ng tb bb : Bool) (m : Msg) (h : m.attachments ≠ 0) :
    groupStyleCore ng tb bb m = ["single"] := by
  cases ng <;> simp [groupStyleCore, h]

theorem groupStyleCore_nogroup (tb bb : Bool) (m : Msg) :
    groupStyleCore true tb bb m = ["single"] := by
  simp [groupStyleCore]

theorem groupStyleEmit_skip (ng : Bool) (prev next : Option Entry) (e : Entry)
    (h : ggsSkip e = true) : groupStyleEmit ng prev e next = none := by
  have hc : (e.typeStr == "message.date" || e.typeStr == "channel.event") = true := h
  simp [groupStyleEmit, hc]

theorem groupStyleEmit_msg (ng : Bool) (prev next : Option Entry) (m : Msg)
    (h : ggsSkip (Entry.msg m) = false) :
    groupStyleEmit ng prev (Entry.msg m) next =
      some ((Entry.msg m).propKey, computeGroupStyle ng prev m next) := by
  have hc : ((Entry.msg m).typeStr == "message.date" ||
      (Entry.msg m).typeStr == "channel.event") = false := h
  simp [groupStyleEmit, hc]

theorem keys_groupStylesGo (ng : Bool) :
    ∀ (l : List Entry) (prev : Option Entry),
      (groupStylesGo ng prev l).map Prod.fst =
        (l.filter (fun e => !ggsSkip e)).map Entry.propKey := by
  intro l
  induction l with
  | nil => intro prev; rfl
  | cons e rest ih =>
    intro prev
    cases hskip : ggsSkip e with
    | true =>
      simp only [groupStylesGo, groupStyleEmit_skip ng prev rest.head? e hskip]
      rw [ih]
      simp [List.filter_cons, hskip]
    | false =>
      cases e with
      | msg m =>
        simp only [groupStylesGo, groupStyleEmit_msg ng prev rest.head? m hskip]
        simp only [List.map_cons]
        rw [ih]
        simp [List.filter_cons, hskip]
      | dateMarker d => simp [ggsSkip, Entry.typeStr] at hskip
      | channelEvent ev => simp [ggsSkip, Entry.typeStr] at hskip

theorem groupStylesGo_append (ng : Bool) :
    ∀ (A : List Entry) (prev : Option Entry) (l : List Entry),
      ∃ pre, groupStylesGo ng prev (A ++ l) =
        pre ++ groupStylesGo ng (prevAfter prev A) l := by
  intro A
  induction A with
  | nil => intro prev l; exact ⟨[], rfl⟩
  | cons a A' ih =>
    intro prev l
    rcases ih (some a) l with ⟨pre', hpre'⟩
    cases hemit : groupStyleEmit ng prev a (A' ++ l).head? with
    | some kv =>
      refine ⟨kv :: pre', ?_⟩
      simp only [List.cons_append, groupStylesGo, List.append_eq, hemit, hpre',
        prevAfter]
    | none =>
      exact ⟨pre', by
        simp only [List.cons_append, groupStylesGo, List.append_eq, hemit, hpre',
          prevAfter]⟩

theorem find?_eq_of_mem_nodup {V : Type} :
    ∀ (l : List (String × V)) (k : String) (v : V),
      (k, v) ∈ l → (l.map Prod.fst).Nodup →
      l.find? (fun p => p.1 == k) = some (k, v) := by
  intro l
  induction l with
  | nil => intro k v h _; simp at h
  | cons p rest ih =>
    intro k v hmem hnd
    rw [List.map_cons] at hnd
    rcases List.nodup_cons.mp hnd with ⟨hp1, hnd'⟩
    rcases List.mem_cons.mp hmem with h1 | h1
    · rw [← h1]
      simp [List.find?_cons]
    · have hk : (p.1 == k) = false := by
        apply beq_eq_false_iff_ne.mpr
        intro hc
        apply hp1
        rw [hc]
        exact List.mem_map_of_mem Prod.fst h1
      simp only [List.find?_cons, hk]
      exact ih k v h1 hnd'

theorem lookupLast_eq_of_mem_nodup {V : Type} (l : List (String × V)) (k : String)
    (v : V) (hmem : (k, v) ∈ l) (hnd : (l.map Prod.fst).Nodup) :
    lookupLast l k = some v := by
  rw [lookupLast, find?_eq_of_mem_nodup l.reverse k v (List.mem_reverse.mpr hmem) ?_]
  · rfl
  · rw [List.map_reverse]
    exact List.nodup_reverse.mpr hnd

theorem lookupLast_groupStyles (ng : Bool) (entries : List Entry) (k : String)
    (v : List String) (hmem : (k, v) ∈ getGroupStyles ng entries)
    (hnd : ((entries.filter (fun e => !ggsSkip e)).map Entry.propKey).Nodup) :
    lookupLast (getGroupStyles ng entries) k = some v := by
  apply lookupLast_eq_of_mem_nodup _ _ _ hmem
  rw [getGroupStyles, keys_groupStylesGo]
  exact hnd

theorem groupStylesGo_cons_msg (ng : Bool) (prev : Option Entry) (m : Msg)
    (rest : List Entry) (h : ggsSkip (Entry.msg m) = false) :
    groupStylesGo ng prev (Entry.msg m :: rest) =
      ((Entry.msg m).propKey, computeGroupStyle ng prev m rest.head?) ::
        groupStylesGo ng (some (Entry.msg m)) rest := by
  simp only [groupStylesGo, groupStyleEmit_msg ng prev rest.head? m h]

/-- **C5** (amended). Three consecutive same-user messages with plain
types, empty attachments and no soft-deletion are styled `top`,
`middle`, `bottom` PROVIDED the entry preceding the first and the
entry following the last (when they exist) are group boundaries —
without that proviso the claim fails, e.g. inside a run of four
messages. The two override clauses of the claim hold as stated: a
message with non-empty attachments is always `single` regardless of
its neighbours, and under the `noGroupByUser` flag every message is
`single` (message ids are assumed pairwise distinct so that the lookup
in the resulting id-keyed map is unambiguous). -/
theorem c5_group_styles :
    (∀ (A B : List Entry) (m1 m2 m3 : Msg),
        plainGroupMsg m1 = true → plainGroupMsg m2 = true → plainGroupMsg m3 = true →
        m1.user = m2.user → m2.user = m3.user →
        isBoundaryOpt m1.user (prevAfter none A) = true →
        isBoundaryOpt m3.user B.head? = true →
        (((A ++ Entry.msg m1 :: Entry.msg m2 :: Entry.msg m3 :: B).filter
            (fun e => !ggsSkip e)).map Entry.propKey).Nodup →
        lookupLast (getGroupStyles false
            (A ++ Entry.msg m1 :: Entry.msg m2 :: Entry.msg m3 :: B))
            (Entry.msg m1).propKey = some ["top"] ∧
          lookupLast (getGroupStyles false
              (A ++ Entry.msg m1 :: Entry.msg m2 :: Entry.msg m3 :: B))
              (Entry.msg m2).propKey = some ["middle"] ∧
          lookupLast (getGroupStyles false
              (A ++ Entry.msg m1 :: Entry.msg m2 :: Entry.msg m3 :: B))
              (Entry.msg m3).propKey = some ["bottom"]) ∧
      (∀ (ng : Bool) (A B : List Entry) (m : Msg),
        m.type ≠ "message.date" → m.type ≠ "channel.event" → m.attachments ≠ 0 →
        (((A ++ Entry.msg m :: B).filter (fun e => !ggsSkip e)).map
            Entry.propKey).Nodup →
        lookupLast (getGroupStyles ng (A ++ Entry.msg m :: B))
          (Entry.msg m).propKey = some ["single"]) ∧
      (∀ (A B : List Entry) (m : Msg),
        m.type ≠ "message.date" → m.type ≠ "channel.event" →
        (((A ++ Entry.msg m :: B).filter (fun e => !ggsSkip e)).map
            Entry.propKey).Nodup →
        lookupLast (getGroupStyles true (A ++ Entry.msg m :: B))
          (Entry.msg m).propKey = some ["single"]) := by
  refine ⟨?_, ?_, ?_⟩
  · intro A B m1 m2 m3 h1 h2 h3 hu12 hu23 hbp hbn hnd
    obtain ⟨s1a, s1b, _, _, _, _⟩ := plainGroupMsg_spec m1 h1
    obtain ⟨s2a, s2b, _, _, _, _⟩ := plainGroupMsg_spec m2 h2
    obtain ⟨s3a, s3b, _, _, _, _⟩ := plainGroupMsg_spec m3 h3
    have hskip1 : ggsSkip (Entry.msg m1) = false := ggsSkip_false_of_types m1 s1a s1b
    have hskip2 : ggsSkip (Entry.msg m2) = false := ggsSkip_false_of_types m2 s2a s2b
    have hskip3 : ggsSkip (Entry.msg m3) = false := ggsSkip_false_of_types m3 s3a s3b
    have hgb1 : isGroupBoundary m2.user (Entry.msg m1) = false :=
      isGroupBoundary_false_of_plain _ m1 h1 hu12
    have hgb2a : isGroupBoundary m1.user (Entry.msg m2) = false :=
      isGroupBoundary_false_of_plain _ m2 h2 hu12.symm
    have hgb2b : isGroupBoundary m3.user (Entry.msg m2) = false :=
      isGroupBoundary_false_of_plain _ m2 h2 hu23
    have hgb3 : isGroupBoundary m2.user (Entry.msg m3) = false :=
      isGroupBoundary_false_of_plain _ m3 h3 hu23.symm
    have hs1 : computeGroupStyle false (prevAfter none A) m1 (some (Entry.msg m2)) =
        ["top"] := by
      rw [computeGroupStyle, hbp,
        show isBoundaryOpt m1.user (some (Entry.msg m2)) = false from hgb2a]
      exact groupStyleCore_top m1 h1
    have hs2 : computeGroupStyle false (some (Entry.msg m1)) m2
        (some (Entry.msg m3)) = ["middle"] := by
      rw [computeGroupStyle,
        show isBoundaryOpt m2.user (some (Entry.msg m1)) = false from hgb1,
        show isBoundaryOpt m2.user (some (Entry.msg m3)) = false from hgb3]
      exact groupStyleCore_middle m2 h2
    have hs3 : computeGroupStyle false (some (Entry.msg m2)) m3 B.head? =
        ["bottom"] := by
      rw [computeGroupStyle,
        show isBoundaryOpt m3.user (some (Entry.msg m2)) = false from hgb2b, hbn]
      exact groupStyleCore_bottom m3 h3
    obtain ⟨pre, hpre⟩ := groupStylesGo_append false A none
      (Entry.msg m1 :: Entry.msg m2 :: Entry.msg m3 :: B)
    have hgo : groupStylesGo false (prevAfter none A)
        (Entry.msg m1 :: Entry.msg m2 :: Entry.msg m3 :: B) =
        ((Entry.msg m1).propKey, ["top"]) :: ((Entry.msg m2).propKey, ["middle"]) ::
          ((Entry.msg m3).propKey, ["bottom"]) ::
          groupStylesGo false (some (Entry.msg m3)) B := by
      rw [groupStylesGo_cons_msg false _ m1 _ hskip1,
        groupStylesGo_cons_msg false _ m2 _ hskip2,
        groupStylesGo_cons_msg false _ m3 _ hskip3]
      simp only [List.head?_cons]
      rw [hs1, hs2, hs3]
    have hfull : getGroupStyles false
        (A ++ Entry.msg m1 :: Entry.msg m2 :: Entry.msg m3 :: B) =
        pre ++ (((Entry.msg m1).propKey, ["top"]) ::
          ((Entry.msg m2).propKey, ["middle"]) ::
          ((Entry.msg m3).propKey, ["bottom"]) ::
          groupStylesGo false (some (Entry.msg m3)) B) := by
      rw [getGroupStyles, hpre, hgo]
    refine ⟨?_, ?_, ?_⟩ <;>
      [apply lookupLast_groupStyles false _ _ _ ?_ hnd;
       apply lookupLast_groupStyles false _ _ _ ?_ hnd;
       apply lookupLast_groupStyles false _ _ _ ?_ hnd] <;>
      rw [hfull] <;> simp
  · intro ng A B m h1 h2 hatt hnd
    have hskip : ggsSkip (Entry.msg m) = false := ggsSkip_false_of_types m h1 h2
    obtain ⟨pre, hpre⟩ := groupStylesGo_append ng A none (Entry.msg m :: B)
    have hstyle : computeGroupStyle ng (prevAfter none A) m B.head? = ["single"] := by
      rw [computeGroupStyle]
      exact groupStyleCore_attach ng _ _ m hatt
    apply lookupLast_groupStyles ng _ _ _ ?_ hnd
    rw [getGroupStyles, hpre, groupStylesGo_cons_msg ng _ m _ hskip, hstyle]
    simp
  · intro A B m h1 h2 hnd
    have hskip : ggsSkip (Entry.msg m) = false := ggsSkip_false_of_types m h1 h2
    obtain ⟨pre, hpre⟩ := groupStylesGo_append true A none (Entry.msg m :: B)
    have hstyle : computeGroupStyle true (prevAfter none A) m B.head? = ["single"] := by
      rw [computeGroupStyle]
      exact groupStyleCore_nogroup _ _ m
    apply lookupLast_groupStyles true _ _ _ ?_ hnd
    rw [getGroupStyles, hpre, groupStylesGo_cons_msg true _ m _ hskip, hstyle]
    simp

/-- Witness for `c5_group_styles` at a concrete input: an isolated
run of exactly three same-user messages is styled top/middle/bottom. -/
theorem c5_group_styles_witness :
    lookupLast (getGroupStyles false
        ([] ++ Entry.msg cx5m1 :: Entry.msg cx5m2 :: Entry.msg cx5m3 :: []))
        (Entry.msg cx5m1).propKey = some ["top"] ∧
      lookupLast (getGroupStyles false
          ([] ++ Entry.msg cx5m1 :: Entry.msg cx5m2 :: Entry.msg cx5m3 :: []))
          (Entry.msg cx5m2).propKey = some ["middle"] ∧
      lookupLast (getGroupStyles false
          ([] ++ Entry.msg cx5m1 :: Entry.msg cx5m2 :: Entry.msg cx5m3 :: []))
          (Entry.msg cx5m3).propKey = some ["bottom"] :=
  c5_group_styles.1 [] [] cx5m1 cx5m2 cx5m3 (by decide) (by decide) (by decide)
    (by decide) (by decide) (by decide) (by decide) (by decide)

/-- **C5** counterexample. In a run of FOUR consecutive same-user,
attachment-free, plain messages, the second, third and fourth form
three consecutive messages satisfying every condition of the claim —
yet the first of those three (`g2`) is styled `middle`, not `top`,
because its predecessor `g1` is a same-user non-boundary message. -/
theorem c5_counterexample :
    (cx5m2.user = cx5m3.user ∧ cx5m3.user = cx5m4.user ∧
        plainGroupMsg cx5m2 = true ∧ plainGroupMsg cx5m3 = true ∧
        plainGroupMsg cx5m4 = true) ∧
      lookupLast (getGroupStyles false
          [Entry.msg cx5m1, Entry.msg cx5m2, Entry.msg cx5m3, Entry.msg cx5m4])
        (Entry.msg cx5m2).propKey = some ["middle"] := by
  refine ⟨by decide, by decide⟩
